import Mathlib

/-!
Shallow embedding of the TaskManagerApp repository (src/main.py).

The program is a Flet UI over a SQLite table
  tasks(id INTEGER PRIMARY KEY AUTOINCREMENT, title TEXT NOT NULL,
        priority TEXT NOT NULL, is_completed INTEGER DEFAULT 0,
        task_date TEXT NOT NULL, created_at TEXT DEFAULT CURRENT_TIMESTAMP).

The store is embedded as a list of rows in rowid (insertion) order together
with the AUTOINCREMENT counter (which starts at 1 and never reuses values).
The `is_completed` INTEGER column only ever holds 0 or 1: inserts leave the
DEFAULT 0 and `update_task` writes `int(bool)`; it is therefore embedded as
a `Bool`.  `created_at` is filled by the store's CURRENT_TIMESTAMP default;
the embedding passes that environment-supplied string as an explicit `now`
argument to `add_task`.
-/

namespace TaskApp

/-- One row of the `tasks` table. -/
structure Task where
  id : Nat
  title : String
  priority : String
  is_completed : Bool
  task_date : String
  created_at : String
deriving DecidableEq, Repr

/-- A result row of `get_tasks`: the query projects
`SELECT id, title, priority, is_completed`. -/
structure Row where
  id : Nat
  title : String
  priority : String
  is_completed : Bool
deriving DecidableEq, Repr

/-- Projection performed by the SELECT list of `get_tasks`. -/
def Task.toRow (t : Task) : Row :=
  ⟨t.id, t.title, t.priority, t.is_completed⟩

/-- The file-backed store: rows in rowid (insertion) order, plus the
AUTOINCREMENT counter. -/
structure TaskDatabase where
  tasks : List Task
  next_id : Nat
deriving DecidableEq, Repr

/-- `TaskDatabase.create_table`: fresh empty table; SQLite AUTOINCREMENT
assigns ids starting from 1. -/
def TaskDatabase.create_table : TaskDatabase :=
  ⟨[], 1⟩

/-- `TaskDatabase.add_task(title, priority, task_date)`:
`INSERT INTO tasks (title, priority, task_date) VALUES (?, ?, ?)`.
The row gets the next AUTOINCREMENT id, `is_completed` DEFAULT 0 (false),
and `created_at` the store-supplied timestamp `now`. -/
def TaskDatabase.add_task (db : TaskDatabase)
    (title priority task_date now : String) : TaskDatabase :=
  { tasks := db.tasks ++ [⟨db.next_id, title, priority, false, task_date, now⟩],
    next_id := db.next_id + 1 }

/-- The completion clause appended to the query by `get_tasks`:
`AND is_completed = 1` when the filter string equals "COMPLETED",
`AND is_completed = 0` when it equals "PENDING", nothing otherwise. -/
def matchesFilter (filter_type : String) (t : Task) : Bool :=
  if filter_type = "COMPLETED" then t.is_completed
  else if filter_type = "PENDING" then !t.is_completed
  else true

/-- `TaskDatabase.get_tasks(task_date, filter_type="ALL")`:
`SELECT id, title, priority, is_completed FROM tasks WHERE task_date = ?`
plus the optional completion clause.  Rows come back in store-native
(rowid, i.e. insertion) order.  The source gives `filter_type` the default
value "ALL"; here it is always passed explicitly. -/
def TaskDatabase.get_tasks (db : TaskDatabase)
    (task_date filter_type : String) : List Row :=
  (db.tasks.filter fun t =>
    t.task_date == task_date && matchesFilter filter_type t).map Task.toRow

/-- `TaskDatabase.update_task(task_id, is_completed)`:
`UPDATE tasks SET is_completed = ? WHERE id = ?` with `int(is_completed)`. -/
def TaskDatabase.update_task (db : TaskDatabase)
    (task_id : Nat) (is_completed : Bool) : TaskDatabase :=
  { db with
    tasks := db.tasks.map fun t =>
      if t.id == task_id then { t with is_completed := is_completed } else t }

/-- `TaskDatabase.delete_task(task_id)`: `DELETE FROM tasks WHERE id = ?`. -/
def TaskDatabase.delete_task (db : TaskDatabase) (task_id : Nat) : TaskDatabase :=
  { db with tasks := db.tasks.filter fun t => !(t.id == task_id) }

/-- Python's whitespace set, the characters `str.strip()` removes (those
with `str.isspace()` true): U+0009–U+000D, U+001C–U+001F, space, U+0085,
and the Unicode space separators U+00A0, U+1680, U+2000–U+200A, U+2028,
U+2029, U+202F, U+205F, U+3000. -/
def pyIsSpace (c : Char) : Bool :=
  let n := c.toNat
  (9 ≤ n && n ≤ 13) || (28 ≤ n && n ≤ 31) || n == 32 || n == 0x85 ||
    n == 0xa0 || n == 0x1680 || (0x2000 ≤ n && n ≤ 0x200a) ||
    n == 0x2028 || n == 0x2029 || n == 0x202f || n == 0x205f || n == 0x3000

/-- Python's `str.strip()`: remove leading and trailing whitespace
(`pyIsSpace` characters).  Embedded over the string's character list so
that it computes by kernel reduction. -/
def pyStrip (s : String) : String :=
  ⟨((s.data.dropWhile pyIsSpace).reverse.dropWhile pyIsSpace).reverse⟩

/-- The controller state used by `TaskManagerApp.add_task`: the database,
the text field's value, the dropdown's value and the selected date. -/
structure TaskManagerApp where
  db : TaskDatabase
  task_input : String
  priority_dropdown : String
  selected_date : String
deriving DecidableEq, Repr

/-- `TaskManagerApp.add_task`: strips the input value, returns unchanged when
the stripped title is empty, otherwise inserts with the current dropdown
priority and selected date and clears the input field.  (`load_tasks` only
re-renders; it does not change this state.) -/
def TaskManagerApp.add_task (s : TaskManagerApp) (now : String) : TaskManagerApp :=
  let title := pyStrip s.task_input
  if title = "" then s
  else
    { s with
      db := s.db.add_task title s.priority_dropdown s.selected_date now,
      task_input := "" }

/-- The store mutations the UI can perform, for reachability statements. -/
inductive Op where
  | add (title priority task_date now : String)
  | update (task_id : Nat) (is_completed : Bool)
  | delete (task_id : Nat)
deriving DecidableEq, Repr

/-- Apply one store mutation. -/
def applyOp : Op → TaskDatabase → TaskDatabase
  | .add t p d n, db => db.add_task t p d n
  | .update i b, db => db.update_task i b
  | .delete i, db => db.delete_task i

/-- Apply a sequence of store mutations, oldest first. -/
def applyOps : List Op → TaskDatabase → TaskDatabase
  | [], db => db
  | op :: rest, db => applyOps rest (applyOp op db)

/-- The identifiers handed out by the `add` operations of a sequence, in
the order they are assigned. -/
def assignedIds : List Op → TaskDatabase → List Nat
  | [], _ => []
  | op :: rest, db =>
    match op with
    | .add _ _ _ _ => db.next_id :: assignedIds rest (applyOp op db)
    | _ => assignedIds rest (applyOp op db)

/-- Sample store used by witnesses: two tasks on 2024-01-01, one completed. -/
def db1 : TaskDatabase :=
  ⟨[⟨1, "Buy milk", "Medium", true, "2024-01-01", "t1"⟩,
    ⟨2, "Walk dog", "Low", false, "2024-01-01", "t2"⟩], 3⟩

/-- Helper: `matchesFilter` with the "ALL" string accepts every row. -/
theorem matchesFilter_all (t : Task) : matchesFilter "ALL" t = true := by
  unfold matchesFilter
  rw [if_neg (by decide), if_neg (by decide)]

/-- Helper: `matchesFilter` with "COMPLETED" tests the completion flag. -/
theorem matchesFilter_completed (t : Task) :
    matchesFilter "COMPLETED" t = t.is_completed := by
  unfold matchesFilter
  rw [if_pos rfl]

/-- Helper: `matchesFilter` with "PENDING" tests the negated flag. -/
theorem matchesFilter_pending (t : Task) :
    matchesFilter "PENDING" t = !t.is_completed := by
  unfold matchesFilter
  rw [if_neg (by decide), if_pos rfl]

/-- C10: any filter string other than "COMPLETED" and "PENDING" produces the
same result as "ALL": the query gains no completion clause. -/
theorem get_tasks_other_filter_eq_all (db : TaskDatabase) (d f : String)
    (h1 : f ≠ "COMPLETED") (h2 : f ≠ "PENDING") :
    db.get_tasks d f = db.get_tasks d "ALL" := by
  unfold TaskDatabase.get_tasks
  have hf : ∀ t : Task, matchesFilter f t = true := by
    intro t
    unfold matchesFilter
    rw [if_neg h1, if_neg h2]
  simp only [hf, matchesFilter_all]

/-- Witness for C10 at the lowercase filter string "all". -/
theorem get_tasks_other_filter_eq_all_witness :
    db1.get_tasks "2024-01-01" "all" = db1.get_tasks "2024-01-01" "ALL" :=
  get_tasks_other_filter_eq_all db1 "2024-01-01" "all" (by decide) (by decide)

/-- Helper: a Bool-predicate filter splits by the completion flag. -/
theorem length_filter_split_completed (l : List Task) (p : Task → Bool) :
    (l.filter p).length
      = (l.filter fun t => p t && t.is_completed).length
        + (l.filter fun t => p t && !t.is_completed).length := by
  induction l with
  | nil => rfl
  | cons a l ih =>
      cases hp : p a <;> cases hc : a.is_completed <;>
        simp [List.filter_cons, hp, hc, ih] <;> omega

/-- C2: for a fixed date, the "COMPLETED" listing holds only completed rows
coming from tasks of that date, the "PENDING" listing only pending ones, the
"ALL" listing is their union, and the lengths add up. -/
theorem get_tasks_filter_partition (db : TaskDatabase) (d : String) :
    (∀ r ∈ db.get_tasks d "COMPLETED",
        r.is_completed = true ∧ ∃ t ∈ db.tasks, t.task_date = d ∧ t.toRow = r) ∧
    (∀ r ∈ db.get_tasks d "PENDING",
        r.is_completed = false ∧ ∃ t ∈ db.tasks, t.task_date = d ∧ t.toRow = r) ∧
    (∀ r, r ∈ db.get_tasks d "ALL" ↔
        r ∈ db.get_tasks d "COMPLETED" ∨ r ∈ db.get_tasks d "PENDING") ∧
    (db.get_tasks d "ALL").length
      = (db.get_tasks d "COMPLETED").length + (db.get_tasks d "PENDING").length := by
  unfold TaskDatabase.get_tasks
  simp only [matchesFilter_all, matchesFilter_completed, matchesFilter_pending,
    Bool.and_true]
  refine ⟨?_, ?_, ?_, ?_⟩
  · intro r hr
    simp only [List.mem_map, List.mem_filter, Bool.and_eq_true, beq_iff_eq] at hr
    obtain ⟨t, ⟨ht, hd, hc⟩, rfl⟩ := hr
    exact ⟨hc, t, ht, hd, rfl⟩
  · intro r hr
    simp only [List.mem_map, List.mem_filter, Bool.and_eq_true, beq_iff_eq,
      Bool.not_eq_true'] at hr
    obtain ⟨t, ⟨ht, hd, hc⟩, rfl⟩ := hr
    exact ⟨hc, t, ht, hd, rfl⟩
  · intro r
    simp only [List.mem_map, List.mem_filter, Bool.and_eq_true, beq_iff_eq,
      Bool.not_eq_true']
    constructor
    · rintro ⟨t, ⟨ht, hd⟩, rfl⟩
      cases hc : t.is_completed
      · exact Or.inr ⟨t, ⟨ht, hd, hc⟩, rfl⟩
      · exact Or.inl ⟨t, ⟨ht, hd, hc⟩, rfl⟩
    · rintro (⟨t, ⟨ht, hd, _⟩, rfl⟩ | ⟨t, ⟨ht, hd, _⟩, rfl⟩) <;>
        exact ⟨t, ⟨ht, hd⟩, rfl⟩
  · simp only [List.length_map]
    exact length_filter_split_completed db.tasks _

/-- Witness for C2: the lengths add up on the sample store. -/
theorem get_tasks_filter_partition_witness :
    (db1.get_tasks "2024-01-01" "ALL").length
      = (db1.get_tasks "2024-01-01" "COMPLETED").length
        + (db1.get_tasks "2024-01-01" "PENDING").length :=
  (get_tasks_filter_partition db1 "2024-01-01").2.2.2

/-- C1: adding a task with a non-empty trimmed title t, priority p and date D
makes `get_tasks(D, "ALL")` return exactly the previous rows plus one new row
with title t, priority p and completion flag false (appended at the end, with
the freshly assigned id). -/
theorem add_task_then_list_all (db : TaskDatabase) (t p d now : String)
    (_h1 : pyStrip t = t) (_h2 : t ≠ "") :
    (db.add_task t p d now).get_tasks d "ALL"
      = db.get_tasks d "ALL" ++ [⟨db.next_id, t, p, false⟩] := by
  unfold TaskDatabase.add_task TaskDatabase.get_tasks
  rw [List.filter_append, List.map_append]
  simp [matchesFilter_all, Task.toRow]

/-- Witness for C1 on the sample store with title "Read". -/
theorem add_task_then_list_all_witness :
    pyStrip "Read" = "Read" ∧ ("Read") ≠ "" ∧
    (db1.add_task "Read" "High" "2024-01-01" "t3").get_tasks "2024-01-01" "ALL"
      = db1.get_tasks "2024-01-01" "ALL" ++ [⟨3, "Read", "High", false⟩] :=
  ⟨by decide, by decide,
    add_task_then_list_all db1 "Read" "High" "2024-01-01" "t3"
      (by decide) (by decide)⟩

/-- C3: a task inserted under date D1 never shows up when listing another
date D2: the listing for D2 is unchanged by the insert, whatever the filter. -/
theorem add_task_other_date_invisible (db : TaskDatabase)
    (t p d1 d2 now f : String) (h : d1 ≠ d2) :
    (db.add_task t p d1 now).get_tasks d2 f = db.get_tasks d2 f := by
  unfold TaskDatabase.add_task TaskDatabase.get_tasks
  rw [List.filter_append, List.map_append]
  have hd : (d1 == d2) = false := by
    simpa using h
  simp [hd]

/-- Witness for C3: inserting under 2024-02-02 leaves the 2024-01-01
listing unchanged. -/
theorem add_task_other_date_invisible_witness :
    (db1.add_task "Read" "High" "2024-02-02" "t3").get_tasks "2024-01-01" "ALL"
      = db1.get_tasks "2024-01-01" "ALL" :=
  add_task_other_date_invisible db1 "Read" "High" "2024-02-02" "2024-01-01"
    "t3" "ALL" (by decide)

/-- C6: when the input field's value strips to the empty string, the
controller's add-task action inserts nothing: the store is unchanged and in
fact the whole controller state is unchanged (silent no-op). -/
theorem app_add_task_blank_noop (s : TaskManagerApp) (now : String)
    (h : pyStrip s.task_input = "") :
    (s.add_task now).db = s.db ∧ s.add_task now = s := by
  have hs : s.add_task now = s := by
    unfold TaskManagerApp.add_task
    rw [h]
    simp
  exact ⟨by rw [hs], hs⟩

/-- Witness for C6 with a whitespace-only input field that mixes spaces,
tab, vertical tab, form feed and no-break space. -/
theorem app_add_task_blank_noop_witness :
    ((⟨db1, " \t\x0b\x0c\xa0 ", "Medium", "2024-01-01"⟩ :
        TaskManagerApp).add_task "t3").db = db1 ∧
    (⟨db1, " \t\x0b\x0c\xa0 ", "Medium", "2024-01-01"⟩ :
        TaskManagerApp).add_task "t3"
      = ⟨db1, " \t\x0b\x0c\xa0 ", "Medium", "2024-01-01"⟩ :=
  app_add_task_blank_noop ⟨db1, " \t\x0b\x0c\xa0 ", "Medium", "2024-01-01"⟩
    "t3" (by decide)

/-- C4: when every stored row with identifier i has completion flag b,
updating to not-b and then back to b restores the original store exactly. -/
theorem toggle_twice_id (db : TaskDatabase) (i : Nat) (b : Bool)
    (_hmem : ∃ t ∈ db.tasks, t.id = i)
    (hflag : ∀ t ∈ db.tasks, t.id = i → t.is_completed = b) :
    (db.update_task i (!b)).update_task i b = db := by
  unfold TaskDatabase.update_task
  have hmap :
      (db.tasks.map fun t =>
          if t.id == i then { t with is_completed := !b } else t).map
        (fun t => if t.id == i then { t with is_completed := b } else t)
        = db.tasks := by
    rw [List.map_map]
    conv_rhs => rw [← List.map_id db.tasks]
    refine List.map_congr_left ?_
    intro t ht
    obtain ⟨tid, tt, tp, tc, td, tca⟩ := t
    by_cases hc : tid = i
    · have hb : tc = b := hflag _ ht hc
      subst hc
      subst hb
      simp [Function.comp]
    · simp [Function.comp, hc]
  simp only [hmap]

/-- Witness for C4: double toggle of task 1 on the sample store. -/
theorem toggle_twice_id_witness :
    (db1.update_task 1 (!true)).update_task 1 true = db1 :=
  toggle_twice_id db1 1 true ⟨⟨1, "Buy milk", "Medium", true, "2024-01-01", "t1"⟩,
    by decide, rfl⟩ (by decide)

/-- Helper: with pairwise-distinct identifiers, deleting by id removes at
most one row. -/
theorem length_le_filter_ne_id (l : List Task) (i : Nat)
    (hnd : (l.map Task.id).Nodup) :
    l.length ≤ (l.filter fun t => !(t.id == i)).length + 1 := by
  induction l with
  | nil => simp
  | cons a l ih =>
      rw [List.map_cons, List.nodup_cons] at hnd
      obtain ⟨hna, hnd⟩ := hnd
      by_cases ha : a.id = i
      · have hl : l.filter (fun t => !(t.id == i)) = l := by
          refine List.filter_eq_self.mpr ?_
          intro t ht
          have : t.id ≠ i := by
            intro hti
            apply hna
            rw [ha, ← hti]
            exact List.mem_map_of_mem Task.id ht
          simpa using this
        simp [List.filter_cons, ha, hl]
      · have hbeq : (a.id == i) = false := by simpa using ha
        have hle := ih hnd
        simp only [List.filter_cons, hbeq, Bool.not_false, if_true,
          List.length_cons]
        omega

/-- C7: update rewrites exactly the flag of the rows whose id matches
(leaving every other column and row untouched, positionally), both update
and delete are no-ops when the id is absent, and delete removes at most the
one matching row, keeping all others. -/
theorem update_delete_frame (db : TaskDatabase) (i : Nat) (b : Bool)
    (hnd : (db.tasks.map Task.id).Nodup) :
    (db.update_task i b).tasks.length = db.tasks.length ∧
    List.Forall₂ (fun t u : Task =>
        u.id = t.id ∧ u.title = t.title ∧ u.priority = t.priority ∧
        u.task_date = t.task_date ∧ u.created_at = t.created_at ∧
        u.is_completed = if t.id = i then b else t.is_completed)
      db.tasks (db.update_task i b).tasks ∧
    ((∀ t ∈ db.tasks, t.id ≠ i) →
        db.update_task i b = db ∧ db.delete_task i = db) ∧
    db.tasks.length ≤ (db.delete_task i).tasks.length + 1 ∧
    (∀ t ∈ db.tasks, t.id ≠ i → t ∈ (db.delete_task i).tasks) ∧
    (∀ t ∈ (db.delete_task i).tasks, t ∈ db.tasks ∧ t.id ≠ i) := by
  refine ⟨?_, ?_, ?_, ?_, ?_, ?_⟩
  · unfold TaskDatabase.update_task
    exact List.length_map _ _
  · unfold TaskDatabase.update_task
    rw [List.forall₂_map_right_iff, List.forall₂_same]
    intro t _
    by_cases hc : t.id = i <;> simp [hc]
  · intro h
    constructor
    · unfold TaskDatabase.update_task
      have hmap : (db.tasks.map fun t =>
          if t.id == i then { t with is_completed := b } else t) = db.tasks := by
        conv_rhs => rw [← List.map_id db.tasks]
        refine List.map_congr_left ?_
        intro t ht
        simp [h t ht]
      simp only [hmap]
    · unfold TaskDatabase.delete_task
      have hfil : (db.tasks.filter fun t => !(t.id == i)) = db.tasks := by
        refine List.filter_eq_self.mpr ?_
        intro t ht
        simpa using h t ht
      simp only [hfil]
  · exact length_le_filter_ne_id db.tasks i hnd
  · intro t ht hti
    unfold TaskDatabase.delete_task
    simp only [List.mem_filter, Bool.not_eq_true']
    exact ⟨ht, by simpa using hti⟩
  · intro t ht
    unfold TaskDatabase.delete_task at ht
    simp only [List.mem_filter, Bool.not_eq_true'] at ht
    exact ⟨ht.1, by simpa using ht.2⟩

/-- Witness for C7: on the sample store, updating or deleting the absent
id 5 is a no-op. -/
theorem update_delete_frame_witness :
    db1.update_task 5 true = db1 ∧ db1.delete_task 5 = db1 :=
  (update_delete_frame db1 5 true (by decide)).2.2.1 (by decide)

/-- Helper: no store mutation ever decreases the AUTOINCREMENT counter. -/
theorem applyOp_next_id_le (op : Op) (db : TaskDatabase) :
    db.next_id ≤ (applyOp op db).next_id := by
  cases op with
  | add t p d n => exact Nat.le_succ _
  | update i b => exact Nat.le_refl _
  | delete i => exact Nat.le_refl _

/-- Helper: each mutation preserves "all ids below the counter" and
"ids strictly increasing along the list". -/
theorem applyOp_preserves_inv (op : Op) (db : TaskDatabase)
    (h1 : ∀ t ∈ db.tasks, t.id < db.next_id)
    (h2 : (db.tasks.map Task.id).Pairwise (· < ·)) :
    (∀ t ∈ (applyOp op db).tasks, t.id < (applyOp op db).next_id) ∧
    ((applyOp op db).tasks.map Task.id).Pairwise (· < ·) := by
  cases op with
  | add t p d n =>
      constructor
      · intro u hu
        simp only [applyOp, TaskDatabase.add_task, List.mem_append,
          List.mem_singleton] at hu
        rcases hu with hu | rfl
        · exact Nat.lt_succ_of_lt (h1 u hu)
        · exact Nat.lt_succ_self _
      · simp only [applyOp, TaskDatabase.add_task, List.map_append,
          List.map_cons, List.map_nil]
        rw [List.pairwise_append]
        refine ⟨h2, List.pairwise_singleton _ _, ?_⟩
        intro x hx y hy
        simp only [List.mem_singleton] at hy
        subst hy
        simp only [List.mem_map] at hx
        obtain ⟨u, hu, rfl⟩ := hx
        exact h1 u hu
  | update i b =>
      have hids : ((applyOp (.update i b) db).tasks.map Task.id)
          = db.tasks.map Task.id := by
        simp only [applyOp, TaskDatabase.update_task, List.map_map]
        refine List.map_congr_left ?_
        intro t _
        by_cases hc : (t.id == i) = true <;> simp [Function.comp, hc]
      constructor
      · intro u hu
        simp only [applyOp, TaskDatabase.update_task, List.mem_map] at hu
        obtain ⟨t, ht, rfl⟩ := hu
        have hid : ((if t.id == i then { t with is_completed := b }
            else t) : Task).id = t.id := by
          by_cases hc : (t.id == i) = true <;> simp [hc]
        show ((if t.id == i then { t with is_completed := b }
            else t) : Task).id < db.next_id
        rw [hid]
        exact h1 t ht
      · rw [hids]
        exact h2
  | delete i =>
      have hsub : (applyOp (.delete i) db).tasks.Sublist db.tasks :=
        List.filter_sublist _
      constructor
      · intro u hu
        exact h1 u (hsub.mem hu)
      · exact h2.sublist (hsub.map Task.id)

/-- Helper: the invariants hold after any mutation sequence. -/
theorem applyOps_preserves_inv (ops : List Op) (db : TaskDatabase)
    (h1 : ∀ t ∈ db.tasks, t.id < db.next_id)
    (h2 : (db.tasks.map Task.id).Pairwise (· < ·)) :
    (∀ t ∈ (applyOps ops db).tasks, t.id < (applyOps ops db).next_id) ∧
    ((applyOps ops db).tasks.map Task.id).Pairwise (· < ·) := by
  induction ops generalizing db with
  | nil => exact ⟨h1, h2⟩
  | cons op rest ih =>
      have h := applyOp_preserves_inv op db h1 h2
      exact ih (applyOp op db) h.1 h.2

/-- Helper: every id handed out along a sequence is at least the starting
counter value. -/
theorem assignedIds_le (ops : List Op) (db : TaskDatabase) :
    ∀ x ∈ assignedIds ops db, db.next_id ≤ x := by
  induction ops generalizing db with
  | nil => intro x hx; simp [assignedIds] at hx
  | cons op rest ih =>
      intro x hx
      cases op with
      | add t p d n =>
          simp only [assignedIds, List.mem_cons] at hx
          rcases hx with rfl | hx
          · exact Nat.le_refl _
          · exact Nat.le_trans (applyOp_next_id_le _ db) (ih _ x hx)
      | update i b =>
          simp only [assignedIds] at hx
          exact Nat.le_trans (applyOp_next_id_le _ db) (ih _ x hx)
      | delete i =>
          simp only [assignedIds] at hx
          exact Nat.le_trans (applyOp_next_id_le _ db) (ih _ x hx)

/-- Helper: the ids handed out along a sequence are strictly increasing. -/
theorem assignedIds_pairwise (ops : List Op) (db : TaskDatabase) :
    (assignedIds ops db).Pairwise (· < ·) := by
  induction ops generalizing db with
  | nil => simp [assignedIds]
  | cons op rest ih =>
      cases op with
      | add t p d n =>
          simp only [assignedIds]
          refine List.Pairwise.cons ?_ (ih _)
          intro x hx
          have hle := assignedIds_le rest (applyOp (.add t p d n) db) x hx
          have : (applyOp (.add t p d n) db).next_id = db.next_id + 1 := rfl
          omega
      | update i b =>
          simp only [assignedIds]
          exact ih _
      | delete i =>
          simp only [assignedIds]
          exact ih _

/-- C9: from the freshly created table, after any sequence of add, update
and delete operations all stored identifiers are distinct, and the ids the
store hands out to successive inserts are strictly increasing. -/
theorem ids_unique_monotone (ops : List Op) :
    ((applyOps ops TaskDatabase.create_table).tasks.map Task.id).Nodup ∧
    (assignedIds ops TaskDatabase.create_table).Pairwise (· < ·) := by
  have h := applyOps_preserves_inv ops TaskDatabase.create_table
    (by intro t ht; simp [TaskDatabase.create_table] at ht)
    (by simp [TaskDatabase.create_table])
  exact ⟨List.Pairwise.imp (fun hab => Nat.ne_of_lt hab) h.2,
    assignedIds_pairwise ops _⟩

/-- C8: on every reachable store, any listing is an order-preserving
selection (sublist) of the projected store in rowid order, and since ids
are assigned increasingly the listed rows carry strictly increasing ids:
rows appear in insertion order. -/
theorem get_tasks_insertion_order (ops : List Op) (d f : String) :
    ((applyOps ops TaskDatabase.create_table).get_tasks d f).Sublist
      ((applyOps ops TaskDatabase.create_table).tasks.map Task.toRow) ∧
    (((applyOps ops TaskDatabase.create_table).get_tasks d f).map
        Row.id).Pairwise (· < ·) := by
  have hp : ((applyOps ops TaskDatabase.create_table).tasks.map
      Task.id).Pairwise (· < ·) :=
    (applyOps_preserves_inv ops TaskDatabase.create_table
      (by intro t ht; simp [TaskDatabase.create_table] at ht)
      (by simp [TaskDatabase.create_table])).2
  constructor
  · unfold TaskDatabase.get_tasks
    exact (List.filter_sublist _).map Task.toRow
  · have hsub : (((applyOps ops TaskDatabase.create_table).get_tasks d f).map
        Row.id).Sublist
        ((applyOps ops TaskDatabase.create_table).tasks.map Task.id) := by
      unfold TaskDatabase.get_tasks
      rw [List.map_map]
      exact (List.filter_sublist _).map _
    exact hp.sublist hsub

/-- Helper: if id i is absent and below the counter, one mutation keeps it
absent (inserts only hand out counter values, which are larger). -/
theorem applyOp_keeps_absent (op : Op) (s : TaskDatabase) (i : Nat)
    (h1 : ∀ t ∈ s.tasks, t.id ≠ i) (h2 : i < s.next_id) :
    ∀ t ∈ (applyOp op s).tasks, t.id ≠ i := by
  cases op with
  | add t p d n =>
      intro u hu
      simp only [applyOp, TaskDatabase.add_task, List.mem_append,
        List.mem_singleton] at hu
      rcases hu with hu | rfl
      · exact h1 u hu
      · exact Nat.ne_of_gt h2
  | update j b =>
      intro u hu
      simp only [applyOp, TaskDatabase.update_task, List.mem_map] at hu
      obtain ⟨t, ht, rfl⟩ := hu
      have hid : ((if t.id == j then { t with is_completed := b }
          else t) : Task).id = t.id := by
        by_cases hc : (t.id == j) = true <;> simp [hc]
      rw [hid]
      exact h1 t ht
  | delete j =>
      intro u hu
      exact h1 u ((List.filter_sublist _).mem hu)

/-- Helper: absence of id i below the counter persists through any
mutation sequence. -/
theorem applyOps_keeps_absent (ops : List Op) (s : TaskDatabase) (i : Nat)
    (h1 : ∀ t ∈ s.tasks, t.id ≠ i) (h2 : i < s.next_id) :
    ∀ t ∈ (applyOps ops s).tasks, t.id ≠ i := by
  induction ops generalizing s with
  | nil => exact h1
  | cons op rest ih =>
      exact ih (applyOp op s)
        (applyOp_keeps_absent op s i h1 h2)
        (Nat.lt_of_lt_of_le h2 (applyOp_next_id_le op s))

/-- Helper: every listed row is the projection of some stored task. -/
theorem mem_get_tasks_of_row (db : TaskDatabase) (d f : String) (r : Row)
    (hr : r ∈ db.get_tasks d f) : ∃ t ∈ db.tasks, Task.toRow t = r := by
  unfold TaskDatabase.get_tasks at hr
  simp only [List.mem_map, List.mem_filter] at hr
  obtain ⟨t, ⟨ht, _⟩, rfl⟩ := hr
  exact ⟨t, ht, rfl⟩

/-- C5: deleting id i (with i below the AUTOINCREMENT counter, so that no
later insert can be handed i again) is permanent: after any further sequence
of add, update and delete operations, no listing for any date and filter
contains a row with id i. -/
theorem delete_permanent (db : TaskDatabase) (i : Nat) (ops : List Op)
    (hi : i < db.next_id) (d f : String) (r : Row)
    (hr : r ∈ (applyOps ops (db.delete_task i)).get_tasks d f) :
    r.id ≠ i := by
  have habs : ∀ t ∈ (applyOps ops (db.delete_task i)).tasks, t.id ≠ i := by
    refine applyOps_keeps_absent ops (db.delete_task i) i ?_ hi
    intro t ht
    unfold TaskDatabase.delete_task at ht
    simp only [List.mem_filter, Bool.not_eq_true'] at ht
    simpa using ht.2
  obtain ⟨t, ht, rfl⟩ := mem_get_tasks_of_row _ d f r hr
  exact habs t ht

/-- Witness for C5: delete task 1 from the sample store, then insert another
task; the remaining listed row does not carry id 1. -/
theorem delete_permanent_witness :
    (⟨2, "Walk dog", "Low", false⟩ : Row).id ≠ 1 :=
  delete_permanent db1 1 [Op.add "Read" "High" "2024-01-01" "t3"]
    (by decide) "2024-01-01" "PENDING" ⟨2, "Walk dog", "Low", false⟩
    (by decide)

end TaskApp
